import Mathlib

/-!
Verification of the encrypted prediction-market circuit suite
(`encrypted-ixs/src/lib.rs`) and the coordinator callback parsing
(`programs/prediction_markets/src/lib.rs`).

Machine integers (u8/u16/u32/u64/u128) are modelled as `Nat` with explicit
reduction modulo `2^w` wherever the Rust operation can overflow (arcis
encrypted-circuit arithmetic is fixed-width wrapping arithmetic).  Struct
fields hold the machine value of the corresponding Rust field.
-/

namespace Pulse

set_option maxRecDepth 100000

/-- Width of a u8 value, 2^8. -/
def W8 : Nat := 256

/-- Width of a u32 value, 2^32. -/
def W32 : Nat := 4294967296

/-- Width of a u64 value, 2^64. -/
def W64 : Nat := 18446744073709551616

/-- Structure `VoteData` from `encrypted-ixs/src/lib.rs`.  `voter` is a 32-byte identity
commitment (unused by any circuit arithmetic); `vote_choice` is a u8
(0 = No, 1 = Yes, 2 = Skip); `stake_amount` u64; `predicted_probability` u8;
`conviction_score` u16; `timestamp` u64; `nonce` u128. -/
structure VoteData where
  voter : List Nat
  market_id : Nat
  vote_choice : Nat
  stake_amount : Nat
  predicted_probability : Nat
  conviction_score : Nat
  timestamp : Nat
  nonce : Nat
deriving DecidableEq

/-- The all-zero vote, used as the out-of-range default when indexing a batch. -/
def zeroVote : VoteData :=
  ⟨[], 0, 0, 0, 0, 0, 0, 0⟩

/-- Embedding of `submit_private_vote` (lines 298-338 of
`encrypted-ixs/src/lib.rs`): starts from `is_valid = 1` and clears it on each
violated bound, returning the final byte. -/
def submit_private_vote (vote : VoteData) : Nat :=
  let is_valid := 1
  let is_valid := if 2 < vote.vote_choice then 0 else is_valid
  let is_valid := if vote.stake_amount = 0 then 0 else is_valid
  let is_valid := if 100 < vote.predicted_probability then 0 else is_valid
  let is_valid := if vote.timestamp = 0 then 0 else is_valid
  let is_valid := if vote.conviction_score = 0 ∨ 1000 < vote.conviction_score then 0 else is_valid
  let is_valid := if vote.nonce = 0 then 0 else is_valid
  is_valid

/-- C1: `submit_private_vote` returns 1 exactly when all six bounds hold
(`vote_choice ≤ 2`, `stake_amount > 0`, `predicted_probability ≤ 100`,
`timestamp ≠ 0`, `1 ≤ conviction_score ≤ 1000`, `nonce ≠ 0`) and 0 otherwise;
it is a total function on vote data. -/
theorem submit_private_vote_iff_bounds (vote : VoteData) :
    submit_private_vote vote =
      if vote.vote_choice ≤ 2 ∧ 0 < vote.stake_amount ∧
          vote.predicted_probability ≤ 100 ∧ vote.timestamp ≠ 0 ∧
          1 ≤ vote.conviction_score ∧ vote.conviction_score ≤ 1000 ∧
          vote.nonce ≠ 0 then 1 else 0 := by
  rcases vote with ⟨vtr, mid, vc, sa, pp, cs, ts, no⟩
  simp only [submit_private_vote]
  split_ifs <;> omega

/-- Structure `PayoutData` from `encrypted-ixs/src/lib.rs`: `user_stake`,
`total_winning_stake`, `total_losing_stake`, `accuracy_bonus`,
`conviction_bonus` are u64; `user_vote`, `user_probability`, `market_outcome`
are u8; `user_conviction` is u16. -/
structure PayoutData where
  user : List Nat
  market_id : Nat
  user_stake : Nat
  user_vote : Nat
  user_probability : Nat
  user_conviction : Nat
  market_outcome : Nat
  total_winning_stake : Nat
  total_losing_stake : Nat
  accuracy_bonus : Nat
  conviction_bonus : Nat
deriving DecidableEq

/-- Wrapping u8 subtraction `a - b` as performed by the circuit on 8-bit
values; for machine values with `b ≤ a ≤ 255` it equals `a - b`. -/
def wsub8 (a b : Nat) : Nat := (a % W8 + (W8 - b % W8)) % W8

/-- Embedding of `calculate_payout` (lines 438-480 of
`encrypted-ixs/src/lib.rs`), with u64 products and sums wrapping modulo
2^64 exactly as the fixed-width circuit arithmetic does.  Note the source
performs no 128-bit widening in this function. -/
def calculate_payout (d : PayoutData) : Nat :=
  let user_won := d.user_vote = d.market_outcome
  if user_won then
    let losing_stake_share :=
      if 0 < d.total_winning_stake then
        d.user_stake * d.total_losing_stake % W64 / d.total_winning_stake
      else 0
    let final_payout := (d.user_stake + losing_stake_share) % W64
    let accuracy_factor :=
      if d.market_outcome = 1 then d.user_probability
      else if d.market_outcome = 0 then wsub8 100 d.user_probability
      else 50
    let accuracy_bonus := d.accuracy_bonus * accuracy_factor % W64 / 100
    let final_payout := (final_payout + accuracy_bonus) % W64
    let conviction_bonus := d.conviction_bonus * d.user_conviction % W64 / 1000
    let final_payout := (final_payout + conviction_bonus) % W64
    final_payout
  else 0

/-- The payout win-case example of the spec: stake 100, winning pool 500,
losing pool 300, accuracy bonus pool 50, probability 80, outcome Yes,
conviction bonus pool 200, conviction 500. -/
def examplePayout : PayoutData :=
  ⟨[], 0, 100, 1, 80, 500, 1, 500, 300, 50, 200⟩

/-- Chained wrapping additions collapse to one wrapped sum. -/
theorem wrap_add_chain (a b c d : Nat) :
    (((a + b) % W64 + c) % W64 + d) % W64 = (a + b + c + d) % W64 := by
  simp only [W64]; omega

/-- Helper: `calculate_payout` flattened to a single wrapped sum. -/
theorem calculate_payout_flat (d : PayoutData) :
    calculate_payout d =
      if d.user_vote = d.market_outcome then
        (d.user_stake +
          (if 0 < d.total_winning_stake then
            d.user_stake * d.total_losing_stake % W64 / d.total_winning_stake
          else 0) +
          d.accuracy_bonus *
            (if d.market_outcome = 1 then d.user_probability
             else if d.market_outcome = 0 then wsub8 100 d.user_probability
             else 50) % W64 / 100 +
          d.conviction_bonus * d.user_conviction % W64 / 1000) % W64
      else 0 := by
  by_cases hwin : d.user_vote = d.market_outcome
  · simp only [calculate_payout, hwin, if_true]
    exact wrap_add_chain _ _ _ _
  · simp [calculate_payout, hwin]

/-- C2: for every input, `calculate_payout` returns 0 on a losing vote, and on
a winning vote returns stake + losing-stake share + accuracy bonus +
conviction bonus with truncating division (u64 wrapping arithmetic as in the
circuit; `wsub8 100 p` is the u8 computation of `100 - p`); the spec example
evaluates to 300. -/
theorem calculate_payout_formula :
    (∀ d : PayoutData,
      calculate_payout d =
        if d.user_vote = d.market_outcome then
          (d.user_stake +
            (if 0 < d.total_winning_stake then
              d.user_stake * d.total_losing_stake % W64 / d.total_winning_stake
            else 0) +
            d.accuracy_bonus *
              (if d.market_outcome = 1 then d.user_probability
               else if d.market_outcome = 0 then wsub8 100 d.user_probability
               else 50) % W64 / 100 +
            d.conviction_bonus * d.user_conviction % W64 / 1000) % W64
        else 0) ∧
    calculate_payout examplePayout = 300 :=
  ⟨calculate_payout_flat, by decide⟩

/-- Reference formula for C8, following the spec's words: the exact integer
payout, with every intermediate product computed exactly (as the spec's
claimed 128-bit widening would ensure) and truncating division. -/
def exactPayout (d : PayoutData) : Nat :=
  if d.user_vote = d.market_outcome then
    d.user_stake +
      (if 0 < d.total_winning_stake then
        d.user_stake * d.total_losing_stake / d.total_winning_stake
      else 0) +
      d.accuracy_bonus *
        (if d.market_outcome = 1 then d.user_probability
         else if d.market_outcome = 0 then 100 - d.user_probability
         else 50) / 100 +
      d.conviction_bonus * d.user_conviction / 1000
  else 0

/-- Winning input whose exact payout (2^34) fits in u64 but whose
intermediate product `user_stake * total_losing_stake = 2^66` wraps. -/
def overflowPayout : PayoutData :=
  ⟨[], 0, 8589934592, 1, 80, 0, 1, 8589934592, 8589934592, 0, 0⟩

/-- C8 counterexample: the claim that intermediate products are widened to
128 bits fails: at `overflowPayout` the exact payout 2^34 fits in u64, yet
`calculate_payout` returns 2^33 because `user_stake * total_losing_stake`
wraps modulo 2^64. -/
theorem calculate_payout_no_widening :
    exactPayout overflowPayout = 17179869184 ∧
    exactPayout overflowPayout < W64 ∧
    calculate_payout overflowPayout = 8589934592 ∧
    calculate_payout overflowPayout ≠ exactPayout overflowPayout := by
  refine ⟨by decide, by decide, by decide, by decide⟩

/-- C8 amended: `calculate_payout` computes its intermediate products in
64-bit wrapping arithmetic (no widening); whenever the three products and the
exact payout all fit in u64 (and the u8 probability is in range), the result
equals the exact integer formula. -/
theorem calculate_payout_exact_of_no_overflow (d : PayoutData)
    (hp : d.user_probability ≤ 100)
    (h1 : d.user_stake * d.total_losing_stake < W64)
    (h2 : d.accuracy_bonus * 100 < W64)
    (h3 : d.conviction_bonus * d.user_conviction < W64)
    (h4 : exactPayout d < W64) :
    calculate_payout d = exactPayout d := by
  by_cases hwin : d.user_vote = d.market_outcome
  · have hfac :
        (if d.market_outcome = 1 then d.user_probability
         else if d.market_outcome = 0 then wsub8 100 d.user_probability
         else 50) =
        (if d.market_outcome = 1 then d.user_probability
         else if d.market_outcome = 0 then 100 - d.user_probability
         else 50) := by
      by_cases ho1 : d.market_outcome = 1
      · simp [ho1]
      · by_cases ho0 : d.market_outcome = 0
        · rw [if_neg ho1, if_neg ho1, if_pos ho0, if_pos ho0]
          simp only [wsub8, W8]
          omega
        · simp [ho1, ho0]
    have hfacle :
        (if d.market_outcome = 1 then d.user_probability
         else if d.market_outcome = 0 then 100 - d.user_probability
         else 50) ≤ 100 := by
      split_ifs <;> omega
    have hab : d.accuracy_bonus *
        (if d.market_outcome = 1 then d.user_probability
         else if d.market_outcome = 0 then 100 - d.user_probability
         else 50) < W64 :=
      lt_of_le_of_lt (Nat.mul_le_mul_left _ hfacle) h2
    have hsh :
        (if 0 < d.total_winning_stake then
          d.user_stake * d.total_losing_stake % W64 / d.total_winning_stake
        else 0) =
        (if 0 < d.total_winning_stake then
          d.user_stake * d.total_losing_stake / d.total_winning_stake
        else 0) := by
      rw [Nat.mod_eq_of_lt h1]
    rw [calculate_payout_flat d, exactPayout, if_pos hwin, if_pos hwin,
      hfac, hsh, Nat.mod_eq_of_lt hab, Nat.mod_eq_of_lt h3]
    rw [exactPayout, if_pos hwin] at h4
    exact Nat.mod_eq_of_lt h4
  · rw [calculate_payout_flat d, exactPayout, if_neg hwin, if_neg hwin]

/-- C8 amended-claim witness at the spec's win-case example. -/
theorem calculate_payout_exact_of_no_overflow_witness :
    calculate_payout examplePayout = exactPayout examplePayout :=
  calculate_payout_exact_of_no_overflow examplePayout (by decide) (by decide)
    (by decide) (by decide) (by decide)

/-- Structure `MarketVotingState` from `encrypted-ixs/src/lib.rs`: vote counters and
`total_participants` are u32, stake/probability/conviction accumulators and
`last_updated` are u64. -/
structure MarketVotingState where
  market_id : Nat
  total_yes_votes : Nat
  total_no_votes : Nat
  total_skip_votes : Nat
  total_yes_stake : Nat
  total_no_stake : Nat
  total_participants : Nat
  weighted_probability_sum : Nat
  conviction_weighted_yes : Nat
  conviction_weighted_no : Nat
  last_updated : Nat
deriving DecidableEq

/-- The all-zero market state (market creation state). -/
def zeroState : MarketVotingState :=
  ⟨0, 0, 0, 0, 0, 0, 0, 0, 0, 0, 0⟩

/-- The per-vote fold of `aggregate_market_votes` (lines 352-380 of
`encrypted-ixs/src/lib.rs`): a vote with `vote_choice ≤ 2` and positive stake
updates the side counters, stakes and conviction/probability accumulators and
increments `total_participants`; any other vote leaves the state untouched.
Counter updates wrap at u32 width, accumulator updates at u64 width. -/
def foldVote (state : MarketVotingState) (vote : VoteData) : MarketVotingState :=
  if vote.vote_choice ≤ 2 ∧ 0 < vote.stake_amount then
    let state :=
      if vote.vote_choice = 1 then
        { state with
          total_yes_votes := (state.total_yes_votes + 1) % W32,
          total_yes_stake := (state.total_yes_stake + vote.stake_amount) % W64,
          conviction_weighted_yes :=
            (state.conviction_weighted_yes +
              vote.conviction_score * vote.stake_amount % W64) % W64 }
      else if vote.vote_choice = 0 then
        { state with
          total_no_votes := (state.total_no_votes + 1) % W32,
          total_no_stake := (state.total_no_stake + vote.stake_amount) % W64,
          conviction_weighted_no :=
            (state.conviction_weighted_no +
              vote.conviction_score * vote.stake_amount % W64) % W64 }
      else if vote.vote_choice = 2 then
        { state with total_skip_votes := (state.total_skip_votes + 1) % W32 }
      else state
    let state :=
      if vote.vote_choice ≠ 2 then
        { state with
          weighted_probability_sum :=
            (state.weighted_probability_sum +
              vote.stake_amount * vote.predicted_probability % W64) % W64 }
      else state
    { state with total_participants := (state.total_participants + 1) % W32 }
  else state

/-- One iteration of the batch loop of `aggregate_market_votes`: index `i` is
processed only when `i < vote_count`. -/
def aggStep (votes : List VoteData) (count : Nat) (s : MarketVotingState) (i : Nat) :
    MarketVotingState :=
  if i < count then foldVote s (votes.getD i zeroVote) else s

/-- The state after the batch loop of `aggregate_market_votes` (`for i in
0..100`). -/
def aggState (votes : List VoteData) (count : Nat) (s : MarketVotingState) :
    MarketVotingState :=
  (List.range 100).foldl (aggStep votes count) s

/-- Little-endian bytes of a u32 value (`to_le_bytes`). -/
def u32le (n : Nat) : List Nat :=
  [n % 256, n / 256 % 256, n / 65536 % 256, n / 16777216 % 256]

/-- Little-endian bytes of a u64 value (`to_le_bytes`). -/
def u64le (n : Nat) : List Nat :=
  [n % 256, n / 256 % 256, n / 65536 % 256, n / 16777216 % 256,
   n / 4294967296 % 256, n / 1099511627776 % 256,
   n / 281474976710656 % 256, n / 72057594037927936 % 256]

/-- The 32-byte revealed buffer built by `aggregate_market_votes` (lines
383-433 of `encrypted-ixs/src/lib.rs`): yes-vote count at offset 0, no-vote
count at 4, yes stake at 8, no stake at 16, participant count at 24, the
derived market probability byte at 28, and zero padding at 29-31. -/
def aggregate_market_votes (votes : List VoteData) (count : Nat)
    (s : MarketVotingState) : List Nat :=
  let st := aggState votes count s
  let market_probability :=
    if 0 < (st.total_yes_stake + st.total_no_stake) % W64 then
      st.weighted_probability_sum / ((st.total_yes_stake + st.total_no_stake) % W64)
    else 50
  u32le st.total_yes_votes ++ u32le st.total_no_votes ++
    u64le st.total_yes_stake ++ u64le st.total_no_stake ++
    u32le st.total_participants ++ [market_probability % W8, 0, 0, 0]

/-- Helper: the per-vote fold never writes `last_updated`. -/
theorem foldVote_last_updated (s : MarketVotingState) (v : VoteData) :
    (foldVote s v).last_updated = s.last_updated := by
  unfold foldVote
  split_ifs <;> rfl

/-- Helper: the whole batch loop never writes `last_updated`. -/
theorem foldl_aggStep_last_updated (votes : List VoteData) (count : Nat)
    (l : List Nat) :
    ∀ s : MarketVotingState,
      (l.foldl (aggStep votes count) s).last_updated = s.last_updated := by
  induction l with
  | nil => intro s; rfl
  | cons i t ih =>
      intro s
      rw [List.foldl_cons, ih]
      unfold aggStep
      split_ifs
      · exact foldVote_last_updated s _
      · rfl

/-- C9 amended: `aggregate_market_votes` never advances `last_updated`; the
output state carries the input value unchanged no matter how many votes were
accepted (the claimed logical clock is not implemented). -/
theorem aggregate_market_votes_last_updated_unchanged
    (votes : List VoteData) (count : Nat) (s : MarketVotingState) :
    (aggState votes count s).last_updated = s.last_updated :=
  foldl_aggStep_last_updated votes count (List.range 100) s

/-- Boolean form of the acceptance test of the aggregation loop. -/
def isAccepted (v : VoteData) : Bool :=
  decide (v.vote_choice ≤ 2 ∧ 0 < v.stake_amount)

/-- Number of accepted votes among the processed batch prefix. -/
def acceptedCount (votes : List VoteData) (count : Nat) : Nat :=
  (List.range 100).countP fun i => decide (i < count) && isAccepted (votes.getD i zeroVote)

/-- A well-formed Yes vote with stake 5. -/
def okVote : VoteData :=
  ⟨[], 0, 1, 5, 50, 1, 1, 1⟩

/-- C9 counterexample: a batch with exactly one accepted vote leaves
`last_updated` at its input value instead of advancing it by one. -/
theorem aggregate_market_votes_no_logical_clock :
    acceptedCount [okVote] 1 = 1 ∧
    (aggState [okVote] 1 zeroState).total_participants = 1 ∧
    (aggState [okVote] 1 zeroState).last_updated = zeroState.last_updated ∧
    (aggState [okVote] 1 zeroState).last_updated ≠ zeroState.last_updated + 1 := by
  refine ⟨by decide, by decide, by decide, by decide⟩

/-- Helper: one fold step preserves the wrapped vote-count equation. -/
theorem foldVote_count_inv (s : MarketVotingState) (v : VoteData)
    (h : (s.total_yes_votes + s.total_no_votes + s.total_skip_votes) % W32 =
      s.total_participants % W32) :
    ((foldVote s v).total_yes_votes + (foldVote s v).total_no_votes +
        (foldVote s v).total_skip_votes) % W32 =
      (foldVote s v).total_participants % W32 := by
  simp only [foldVote, W32] at *
  split_ifs <;> (try dsimp only) <;> omega

/-- Helper: the batch loop preserves the wrapped vote-count equation. -/
theorem foldl_aggStep_count_inv (votes : List VoteData) (count : Nat)
    (l : List Nat) :
    ∀ s : MarketVotingState,
      (s.total_yes_votes + s.total_no_votes + s.total_skip_votes) % W32 =
          s.total_participants % W32 →
      ((l.foldl (aggStep votes count) s).total_yes_votes +
          (l.foldl (aggStep votes count) s).total_no_votes +
          (l.foldl (aggStep votes count) s).total_skip_votes) % W32 =
        (l.foldl (aggStep votes count) s).total_participants % W32 := by
  induction l with
  | nil => intro s h; exact h
  | cons i t ih =>
      intro s h
      rw [List.foldl_cons]
      apply ih
      unfold aggStep
      split_ifs
      · exact foldVote_count_inv s _ h
      · exact h

/-- C6: the u32 vote-count equation `total_yes_votes + total_no_votes +
total_skip_votes == total_participants` is an invariant of the aggregation
fold: rejected votes change nothing, and each accepted vote increments exactly
one side counter together with `total_participants` (u32 arithmetic, i.e.
modulo 2^32, as in the circuit). -/
theorem aggregate_market_votes_count_invariant :
    (∀ (s : MarketVotingState) (v : VoteData),
      ¬(v.vote_choice ≤ 2 ∧ 0 < v.stake_amount) → foldVote s v = s) ∧
    (∀ (votes : List VoteData) (count : Nat) (s : MarketVotingState),
      (s.total_yes_votes + s.total_no_votes + s.total_skip_votes) % W32 =
          s.total_participants % W32 →
      ((aggState votes count s).total_yes_votes +
          (aggState votes count s).total_no_votes +
          (aggState votes count s).total_skip_votes) % W32 =
        (aggState votes count s).total_participants % W32) := by
  constructor
  · intro s v hv
    unfold foldVote
    exact if_neg hv
  · intro votes count s h
    exact foldl_aggStep_count_inv votes count (List.range 100) s h

/-- C6 witness: the zero state satisfies the equation and still satisfies it
after aggregating a concrete two-vote batch. -/
theorem aggregate_market_votes_count_invariant_witness :
    ((zeroState.total_yes_votes + zeroState.total_no_votes +
        zeroState.total_skip_votes) % W32 = zeroState.total_participants % W32) ∧
    ((aggState [okVote, okVote] 2 zeroState).total_yes_votes +
        (aggState [okVote, okVote] 2 zeroState).total_no_votes +
        (aggState [okVote, okVote] 2 zeroState).total_skip_votes) % W32 =
      (aggState [okVote, okVote] 2 zeroState).total_participants % W32 :=
  ⟨by decide,
    aggregate_market_votes_count_invariant.2 [okVote, okVote] 2 zeroState (by decide)⟩

/-- Helper: a rejected vote leaves the state exactly unchanged. -/
theorem foldVote_rejected (s : MarketVotingState) (v : VoteData)
    (h : ¬(v.vote_choice ≤ 2 ∧ 0 < v.stake_amount)) : foldVote s v = s := by
  unfold foldVote
  exact if_neg h

/-- Helper: the per-vote fold is right-commutative. -/
theorem foldVote_comm (s : MarketVotingState) (a b : VoteData) :
    foldVote (foldVote s a) b = foldVote (foldVote s b) a := by
  by_cases ha : a.vote_choice ≤ 2 ∧ 0 < a.stake_amount
  · by_cases hb : b.vote_choice ≤ 2 ∧ 0 < b.stake_amount
    · obtain hca | hca | hca : a.vote_choice = 0 ∨ a.vote_choice = 1 ∨ a.vote_choice = 2 := by
        omega
      all_goals
        obtain hcb | hcb | hcb : b.vote_choice = 0 ∨ b.vote_choice = 1 ∨ b.vote_choice = 2 := by
          omega
      all_goals
        simp [foldVote, hca, hcb, ha.2, hb.2, MarketVotingState.mk.injEq, W32, W64]
      all_goals omega
    · rw [foldVote_rejected (foldVote s a) b hb, foldVote_rejected s b hb]
  · by_cases hb : b.vote_choice ≤ 2 ∧ 0 < b.stake_amount
    · rw [foldVote_rejected s a ha, foldVote_rejected (foldVote s b) a ha]
    · rw [foldVote_rejected s a ha, foldVote_rejected s b hb,
        foldVote_rejected s a ha]

/-- Helper: the guarded loop over indices `0..n` folds exactly the first
`min count n` batch entries. -/
theorem foldl_aggStep_eq_take (votes : List VoteData) (count : Nat) :
    ∀ (n : Nat) (s : MarketVotingState), n ≤ votes.length →
      (List.range n).foldl (aggStep votes count) s =
        (votes.take (min count n)).foldl foldVote s := by
  intro n
  induction n with
  | zero => intro s h; simp
  | succ m ih =>
      intro s h
      rw [List.range_succ, List.foldl_append]
      by_cases hc : m < count
      · have hmin1 : min count (m + 1) = m + 1 := by omega
        have hmin2 : min count m = m := by omega
        have hm : m < votes.length := by omega
        have htake : votes.take (m + 1) = votes.take m ++ [votes.getD m zeroVote] := by
          rw [List.take_succ, List.getElem?_eq_getElem hm,
            List.getD_eq_getElem votes zeroVote hm]
          rfl
        rw [hmin1, htake, List.foldl_append, ih s (by omega), hmin2]
        simp [aggStep, hc]
      · have hmin : min count (m + 1) = min count m := by omega
        rw [hmin, ih s (by omega)]
        simp [aggStep, hc]

/-- C5: aggregation is order-independent: for two 100-vote batches whose
processed prefixes (the first `vote_count` entries) are permutations of each
other, `aggregate_market_votes` produces bit-for-bit the same final state and
the same revealed 32-byte buffer. -/
theorem aggregate_market_votes_perm (votes1 votes2 : List VoteData)
    (count : Nat) (s : MarketVotingState)
    (h1 : votes1.length = 100) (h2 : votes2.length = 100)
    (hperm : (votes1.take count).Perm (votes2.take count)) :
    aggState votes1 count s = aggState votes2 count s ∧
    aggregate_market_votes votes1 count s = aggregate_market_votes votes2 count s := by
  have e1 : votes1.take (min count 100) = votes1.take count := by
    rcases le_or_lt count 100 with hc | hc
    · rw [Nat.min_eq_left hc]
    · rw [Nat.min_eq_right (by omega), List.take_of_length_le (by omega),
        List.take_of_length_le (by omega)]
  have e2 : votes2.take (min count 100) = votes2.take count := by
    rcases le_or_lt count 100 with hc | hc
    · rw [Nat.min_eq_left hc]
    · rw [Nat.min_eq_right (by omega), List.take_of_length_le (by omega),
        List.take_of_length_le (by omega)]
  have key : aggState votes1 count s = aggState votes2 count s := by
    unfold aggState
    rw [foldl_aggStep_eq_take votes1 count 100 s (by omega),
      foldl_aggStep_eq_take votes2 count 100 s (by omega), e1, e2]
    exact hperm.foldl_eq' (fun x _hx y _hy z => foldVote_comm z x y) s
  refine ⟨key, ?_⟩
  unfold aggregate_market_votes
  rw [key]

/-- A well-formed No vote with stake 9. -/
def noVote : VoteData :=
  ⟨[], 0, 0, 9, 40, 2, 1, 1⟩

/-- First two-vote batch used in the C5 witness, padded to 100 entries. -/
def permBatch1 : List VoteData :=
  okVote :: noVote :: List.replicate 98 zeroVote

/-- Second batch: the same two votes swapped, padded to 100 entries. -/
def permBatch2 : List VoteData :=
  noVote :: okVote :: List.replicate 98 zeroVote

/-- C5 witness: swapping the two processed votes of a concrete batch leaves
the aggregated state and revealed buffer unchanged. -/
theorem aggregate_market_votes_perm_witness :
    aggState permBatch1 2 zeroState = aggState permBatch2 2 zeroState ∧
    aggregate_market_votes permBatch1 2 zeroState =
      aggregate_market_votes permBatch2 2 zeroState :=
  aggregate_market_votes_perm permBatch1 permBatch2 2 zeroState
    (by decide) (by decide) (by decide)

/-- Little-endian u32 read at a byte offset, as `u32::from_le_bytes` on
`bytes[off..off+4]`. -/
def leU32 (bytes : List Nat) (off : Nat) : Nat :=
  bytes.getD off 0 + bytes.getD (off + 1) 0 * 256 +
    bytes.getD (off + 2) 0 * 65536 + bytes.getD (off + 3) 0 * 16777216

/-- Little-endian u64 read at a byte offset, as `u64::from_le_bytes` on
`bytes[off..off+8]`. -/
def leU64 (bytes : List Nat) (off : Nat) : Nat :=
  leU32 bytes off + leU32 bytes (off + 4) * 4294967296

/-- The parse performed by `aggregate_votes_callback` (lines 420-447 of
`programs/prediction_markets/src/lib.rs`): it reads, in order,
`total_yes_votes` from bytes 0..4, `total_no_votes` from 4..8,
`total_stake` from 8..16, `yes_stake` from 16..24 and `no_stake` from
24..32. -/
def aggregate_votes_callback (bytes : List Nat) : Nat × Nat × Nat × Nat × Nat :=
  (leU32 bytes 0, leU32 bytes 4, leU64 bytes 8, leU64 bytes 16, leU64 bytes 24)

/-- A Yes vote with stake 7 for the C7 failing input. -/
def yesVote7 : VoteData :=
  ⟨[], 0, 1, 7, 50, 1, 1, 1⟩

/-- A No vote with stake 9 for the C7 failing input. -/
def noVote9 : VoteData :=
  ⟨[], 0, 0, 9, 50, 1, 1, 1⟩

/-- C7: the coordinator's parse does not invert the circuit's packing.  After
aggregating one Yes vote of stake 7 and one No vote of stake 9 the circuit
buffer holds yes-stake 7 at offset 8, no-stake 9 at offset 16 and participant
count 2 at offset 24, but the callback decodes the quintuple
(yes votes, no votes, total stake, yes stake, no stake) as
(1, 1, 7, 9, 2 + 50·2^32): its `yes_stake` field reads the circuit's no-stake
bytes, its `no_stake` field reads the participant-count and probability
bytes, and the participant count is never recovered. -/
theorem aggregate_votes_callback_layout_mismatch :
    (aggState [yesVote7, noVote9] 2 zeroState).total_yes_stake = 7 ∧
    (aggState [yesVote7, noVote9] 2 zeroState).total_no_stake = 9 ∧
    (aggState [yesVote7, noVote9] 2 zeroState).total_participants = 2 ∧
    aggregate_votes_callback (aggregate_market_votes [yesVote7, noVote9] 2 zeroState) =
      (1, 1, 7, 9, 2 + 50 * 4294967296) ∧
    (aggregate_votes_callback
        (aggregate_market_votes [yesVote7, noVote9] 2 zeroState)).2.2.2.1 ≠
      (aggState [yesVote7, noVote9] 2 zeroState).total_yes_stake ∧
    (aggregate_votes_callback
        (aggregate_market_votes [yesVote7, noVote9] 2 zeroState)).2.2.2.2 ≠
      (aggState [yesVote7, noVote9] 2 zeroState).total_no_stake := by
  refine ⟨by decide, by decide, by decide, by decide, by decide, by decide⟩

/-- Embedding of `calculate_market_odds` (lines 484-527 of
`encrypted-ixs/src/lib.rs`), producing the 8-byte result array: adjusted
yes/no probability bytes, the participant count in little-endian at bytes
2..6, the high-confidence flag at byte 6 and the average conviction byte at
byte 7; all u64 arithmetic wraps modulo 2^64. -/
def calculate_market_odds (s : MarketVotingState) : List Nat :=
  let total_stake := (s.total_yes_stake + s.total_no_stake) % W64
  if 0 < total_stake then
    let yes_probability := s.total_yes_stake * 100 % W64 / total_stake
    let no_probability := s.total_no_stake * 100 % W64 / total_stake
    let liquidity_factor : Nat :=
      if 10000 < total_stake then 95 else if 1000 < total_stake then 90 else 85
    let adjusted_yes := yes_probability * liquidity_factor % W64 / 100
    let adjusted_no := no_probability * liquidity_factor % W64 / 100
    [adjusted_yes % W8, adjusted_no % W8,
     s.total_participants % 256, s.total_participants / 256 % 256,
     s.total_participants / 65536 % 256, s.total_participants / 16777216 % 256,
     if 1000 < total_stake then 1 else 0,
     (s.conviction_weighted_yes + s.conviction_weighted_no) % W64 / max total_stake 1 % W8]
  else [50, 50, 0, 0, 0, 0, 0, 0]

/-- The odds example state of the spec: yes stake 8000, no stake 2000. -/
def oddsExample : MarketVotingState :=
  ⟨0, 0, 0, 0, 8000, 2000, 0, 0, 0, 0, 0⟩

/-- C3: `calculate_market_odds` returns the 50/50 low-confidence default when
the (u64) total stake is zero, and otherwise emits the stake-implied
probabilities `stake*100/total`, scaled by the liquidity factor (95 if total
over 10000, 90 if over 1000, else 85) and divided by 100, as its first two
bytes; on the spec example (8000/2000) the adjusted bytes are 72 and 18. -/
theorem calculate_market_odds_formula :
    (∀ s : MarketVotingState,
      ((s.total_yes_stake + s.total_no_stake) % W64 = 0 →
        calculate_market_odds s = [50, 50, 0, 0, 0, 0, 0, 0]) ∧
      (0 < (s.total_yes_stake + s.total_no_stake) % W64 →
        (calculate_market_odds s).getD 0 0 =
          s.total_yes_stake * 100 % W64 /
              ((s.total_yes_stake + s.total_no_stake) % W64) *
            (if 10000 < (s.total_yes_stake + s.total_no_stake) % W64 then 95
             else if 1000 < (s.total_yes_stake + s.total_no_stake) % W64 then 90
             else 85) % W64 / 100 % W8 ∧
        (calculate_market_odds s).getD 1 0 =
          s.total_no_stake * 100 % W64 /
              ((s.total_yes_stake + s.total_no_stake) % W64) *
            (if 10000 < (s.total_yes_stake + s.total_no_stake) % W64 then 95
             else if 1000 < (s.total_yes_stake + s.total_no_stake) % W64 then 90
             else 85) % W64 / 100 % W8)) ∧
    (calculate_market_odds oddsExample).getD 0 0 = 72 ∧
    (calculate_market_odds oddsExample).getD 1 0 = 18 := by
  refine ⟨fun s => ⟨fun h0 => ?_, fun hpos => ?_⟩, by decide, by decide⟩
  · simp [calculate_market_odds, h0]
  · simp only [calculate_market_odds, if_pos hpos]
    constructor <;> rfl

/-- C3 witness: the positive-stake branch of the odds formula, instantiated at
the spec's 8000/2000 example state. -/
theorem calculate_market_odds_formula_witness :
    (calculate_market_odds oddsExample).getD 0 0 =
      oddsExample.total_yes_stake * 100 % W64 /
          ((oddsExample.total_yes_stake + oddsExample.total_no_stake) % W64) *
        (if 10000 < (oddsExample.total_yes_stake + oddsExample.total_no_stake) % W64 then 95
         else if 1000 < (oddsExample.total_yes_stake + oddsExample.total_no_stake) % W64 then 90
         else 85) % W64 / 100 % W8 :=
  ((calculate_market_odds_formula.1 oddsExample).2 (by decide)).1

/-- Absolute timestamp difference as computed by `detect_manipulation`
(branching on which timestamp is larger). -/
def timeDiff (t1 t2 : Nat) : Nat :=
  if t2 < t1 then t1 - t2 else t2 - t1

/-- Inner-loop body of `detect_manipulation` (lines 551-575 of
`encrypted-ixs/src/lib.rs`): for a pair `(i, j)` with `i < j < vote_count`,
bump the same-timestamp (diff below 5), same-probability and same-conviction
counters, each a u8 wrapping at 256. -/
def pairStepW (votes : List VoteData) (count i : Nat) (c : Nat × Nat × Nat)
    (j : Nat) : Nat × Nat × Nat :=
  if i < j ∧ j < count then
    ((if timeDiff (votes.getD i zeroVote).timestamp (votes.getD j zeroVote).timestamp < 5 then
        (c.1 + 1) % W8 else c.1),
     (if (votes.getD i zeroVote).predicted_probability =
          (votes.getD j zeroVote).predicted_probability then
        (c.2.1 + 1) % W8 else c.2.1),
     (if (votes.getD i zeroVote).conviction_score =
          (votes.getD j zeroVote).conviction_score then
        (c.2.2 + 1) % W8 else c.2.2))
  else c

/-- Outer-loop body of `detect_manipulation`: row `i` is scanned only when
`i < vote_count`. -/
def rowStepW (votes : List VoteData) (count : Nat) (c : Nat × Nat × Nat)
    (i : Nat) : Nat × Nat × Nat :=
  if i < count then (List.range 50).foldl (pairStepW votes count i) c else c

/-- The three u8 pair counters after both loops of `detect_manipulation`. -/
def pairCountsW (votes : List VoteData) (count : Nat) : Nat × Nat × Nat :=
  (List.range 50).foldl (rowStepW votes count) (0, 0, 0)

/-- Embedding of `detect_manipulation` (lines 531-597 of
`encrypted-ixs/src/lib.rs`): count suspicious pairs in u8 counters, flag each
crossed threshold (`count/4` for timestamps, `count/3` for probabilities and
convictions), and return `min(flags*33, 100)`. -/
def detect_manipulation (votes : List VoteData) (count : Nat) : Nat :=
  let counts := pairCountsW votes count
  let suspicious_patterns := 0
  let suspicious_patterns :=
    if count / 4 < counts.1 then (suspicious_patterns + 1) % W8 else suspicious_patterns
  let suspicious_patterns :=
    if count / 3 < counts.2.1 then (suspicious_patterns + 1) % W8 else suspicious_patterns
  let suspicious_patterns :=
    if count / 3 < counts.2.2 then (suspicious_patterns + 1) % W8 else suspicious_patterns
  min (suspicious_patterns * 33 % W8) 100

/-- Exact (unbounded) variant of `pairStepW`, counting pairs without the u8
wrap; reference for the claim's pair counts. -/
def pairStepE (votes : List VoteData) (count i : Nat) (c : Nat × Nat × Nat)
    (j : Nat) : Nat × Nat × Nat :=
  if i < j ∧ j < count then
    ((if timeDiff (votes.getD i zeroVote).timestamp (votes.getD j zeroVote).timestamp < 5 then
        c.1 + 1 else c.1),
     (if (votes.getD i zeroVote).predicted_probability =
          (votes.getD j zeroVote).predicted_probability then
        c.2.1 + 1 else c.2.1),
     (if (votes.getD i zeroVote).conviction_score =
          (votes.getD j zeroVote).conviction_score then
        c.2.2 + 1 else c.2.2))
  else c

/-- Exact variant of `rowStepW`. -/
def rowStepE (votes : List VoteData) (count : Nat) (c : Nat × Nat × Nat)
    (i : Nat) : Nat × Nat × Nat :=
  if i < count then (List.range 50).foldl (pairStepE votes count i) c else c

/-- The exact numbers of same-timestamp, same-probability and same-conviction
unordered pairs among the first `count` batch entries. -/
def manipPairCounts (votes : List VoteData) (count : Nat) : Nat × Nat × Nat :=
  (List.range 50).foldl (rowStepE votes count) (0, 0, 0)

/-- Componentwise reduction of a counter triple modulo 256. -/
def mod3 (c : Nat × Nat × Nat) : Nat × Nat × Nat :=
  (c.1 % W8, c.2.1 % W8, c.2.2 % W8)

/-- Helper: one pair step commutes with the u8 reduction. -/
theorem pairStep_mod (votes : List VoteData) (count i j : Nat) (c : Nat × Nat × Nat) :
    pairStepW votes count i (mod3 c) j = mod3 (pairStepE votes count i c j) := by
  unfold pairStepW pairStepE mod3
  split_ifs <;> simp [W8, Prod.ext_iff]

/-- Helper: the inner loop commutes with the u8 reduction. -/
theorem foldl_pairStep_mod (votes : List VoteData) (count i : Nat) (l : List Nat) :
    ∀ c, l.foldl (pairStepW votes count i) (mod3 c) =
      mod3 (l.foldl (pairStepE votes count i) c) := by
  induction l with
  | nil => intro c; rfl
  | cons j t ih =>
      intro c
      rw [List.foldl_cons, List.foldl_cons, pairStep_mod]
      exact ih _

/-- Helper: one row step commutes with the u8 reduction. -/
theorem rowStep_mod (votes : List VoteData) (count : Nat) (c : Nat × Nat × Nat)
    (i : Nat) :
    rowStepW votes count (mod3 c) i = mod3 (rowStepE votes count c i) := by
  unfold rowStepW rowStepE
  split_ifs
  · exact foldl_pairStep_mod votes count i (List.range 50) c
  · rfl

/-- Helper: the outer loop commutes with the u8 reduction. -/
theorem foldl_rowStep_mod (votes : List VoteData) (count : Nat) (l : List Nat) :
    ∀ c, l.foldl (rowStepW votes count) (mod3 c) =
      mod3 (l.foldl (rowStepE votes count) c) := by
  induction l with
  | nil => intro c; rfl
  | cons i t ih =>
      intro c
      rw [List.foldl_cons, List.foldl_cons, rowStep_mod]
      exact ih _

/-- Helper: the u8 counters are the exact pair counts reduced modulo 256. -/
theorem pairCountsW_eq (votes : List VoteData) (count : Nat) :
    pairCountsW votes count = mod3 (manipPairCounts votes count) := by
  unfold pairCountsW manipPairCounts
  conv_lhs => rw [show ((0, 0, 0) : Nat × Nat × Nat) = mod3 (0, 0, 0) from rfl]
  exact foldl_rowStep_mod votes count (List.range 50) (0, 0, 0)

/-- Reference score following the claim's words: one flag per crossed
threshold over the exact pair counts, and `min(flags*33, 100)`. -/
def manipulationScoreSpec (votes : List VoteData) (count : Nat) : Nat :=
  min (((if count / 4 < (manipPairCounts votes count).1 then 1 else 0) +
        (if count / 3 < (manipPairCounts votes count).2.1 then 1 else 0) +
        (if count / 3 < (manipPairCounts votes count).2.2 then 1 else 0)) * 33) 100

/-- C4 amended: the pair counters are u8 and wrap modulo 256; whenever each
exact pair count stays below 256, `detect_manipulation` returns exactly the
claimed `min(flags*33, 100)` over the exact counts and thresholds `count/4`,
`count/3`, `count/3`. -/
theorem detect_manipulation_score (votes : List VoteData) (count : Nat)
    (hcount : count ≤ 50)
    (h1 : (manipPairCounts votes count).1 < W8)
    (h2 : (manipPairCounts votes count).2.1 < W8)
    (h3 : (manipPairCounts votes count).2.2 < W8) :
    detect_manipulation votes count = manipulationScoreSpec votes count := by
  simp only [detect_manipulation, manipulationScoreSpec, pairCountsW_eq, mod3,
    Nat.mod_eq_of_lt h1, Nat.mod_eq_of_lt h2, Nat.mod_eq_of_lt h3]
  split_ifs <;> decide

/-- The C4 witness batch from the spec's threshold example: 12 votes with 4
same-timestamp pairs, 5 same-probability pairs and 3 same-conviction pairs. -/
def exampleBatch : List VoteData :=
  [⟨[], 0, 1, 1, 10, 7, 100, 1⟩,
   ⟨[], 0, 1, 1, 10, 7, 100, 1⟩,
   ⟨[], 0, 1, 1, 10, 7, 100, 1⟩,
   ⟨[], 0, 1, 1, 20, 100, 200, 1⟩,
   ⟨[], 0, 1, 1, 20, 101, 200, 1⟩,
   ⟨[], 0, 1, 1, 30, 102, 1000, 1⟩,
   ⟨[], 0, 1, 1, 30, 103, 2000, 1⟩,
   ⟨[], 0, 1, 1, 40, 104, 3000, 1⟩,
   ⟨[], 0, 1, 1, 41, 105, 4000, 1⟩,
   ⟨[], 0, 1, 1, 42, 106, 5000, 1⟩,
   ⟨[], 0, 1, 1, 43, 107, 6000, 1⟩,
   ⟨[], 0, 1, 1, 44, 108, 7000, 1⟩]

/-- C4 amended-claim witness: on the spec's count-12 example (pair counts
4/5/3) the detector returns the claimed score, which evaluates to 66. -/
theorem detect_manipulation_score_witness :
    detect_manipulation exampleBatch 12 = manipulationScoreSpec exampleBatch 12 ∧
    manipPairCounts exampleBatch 12 = (4, 5, 3) ∧
    manipulationScoreSpec exampleBatch 12 = 66 :=
  ⟨detect_manipulation_score exampleBatch 12 (by decide) (by decide) (by decide)
      (by decide),
    by decide, by decide⟩

/-- A 50-vote batch with 256 same-timestamp pairs (a 23-vote cluster and a
3-vote cluster) and no repeated probabilities or convictions. -/
def collusionBatch : List VoteData :=
  (List.range 50).map fun i =>
    ⟨[], 0, 1, 1, i, 100 + i,
      if i < 23 then 1000 else if i < 26 then 2000 else 3000 + 100 * i, 1⟩

/-- C4 counterexample: with 256 same-timestamp pairs among 50 votes the u8
counter wraps to 0, so `detect_manipulation` returns 0 although the claimed
formula over the true pair count (256 > 50/4) yields 33. -/
theorem detect_manipulation_u8_wraparound :
    (manipPairCounts collusionBatch 50).1 = 256 ∧
    (manipPairCounts collusionBatch 50).2.1 = 0 ∧
    (manipPairCounts collusionBatch 50).2.2 = 0 ∧
    manipulationScoreSpec collusionBatch 50 = 33 ∧
    detect_manipulation collusionBatch 50 = 0 ∧
    detect_manipulation collusionBatch 50 ≠ manipulationScoreSpec collusionBatch 50 := by
  refine ⟨by decide, by decide, by decide, by decide, by decide, by decide⟩

/-- One Newton iteration of `sqrt_approx` (line 243 of
`encrypted-ixs/src/lib.rs`): `(result + x / result) / 2`, with the u64
addition wrapping modulo 2^64. -/
def sqrtStep (x r : Nat) : Nat := (r + x / r) % W64 / 2

/-- The Newton iterate after `n` steps, starting from `x / 2`. -/
def sqrtIterN (x : Nat) : Nat → Nat
  | 0 => x / 2
  | n + 1 => sqrtStep x (sqrtIterN x n)

/-- Embedding of `sqrt_approx` (lines 234-248 of `encrypted-ixs/src/lib.rs`):
0 for input 0, 1 for inputs below 4, otherwise 8 Newton iterations from
`x / 2`. -/
def sqrt_approx (x : Nat) : Nat :=
  if x = 0 then 0
  else if x < 4 then 1
  else sqrtIterN x 8

/-- Helper: an integer Newton step from any positive guess lands at or above
the integer square root. -/
theorem newton_ge_sqrt (x r : Nat) (hr : 0 < r) :
    Nat.sqrt x ≤ (r + x / r) / 2 := by
  by_contra hlt
  push_neg at hlt
  have hq : r + x / r < 2 * Nat.sqrt x := by
    have := (Nat.div_lt_iff_lt_mul (by omega : 0 < 2)).1 hlt
    omega
  have hx1 : Nat.sqrt x * Nat.sqrt x ≤ x := Nat.sqrt_le x
  have hmod := Nat.div_add_mod x r
  have hmlt : x % r < r := Nat.mod_lt x hr
  have c1 : ((Nat.sqrt x : ℤ)) * Nat.sqrt x ≤ x := by exact_mod_cast hx1
  have c2 : (x : ℤ) < r * (x / r : ℕ) + r := by
    have : x < r * (x / r) + r := by omega
    exact_mod_cast this
  have c3 : (r : ℤ) + (x / r : ℕ) + 1 ≤ 2 * Nat.sqrt x := by exact_mod_cast hq
  have c4 : (0 : ℤ) < r := by exact_mod_cast hr
  have c5 : (r : ℤ) * ((x / r : ℕ) + 1) ≤ r * (2 * Nat.sqrt x - r) :=
    mul_le_mul_of_nonneg_left (by linarith) (by linarith)
  have c6 : ((Nat.sqrt x : ℤ)) * Nat.sqrt x < r * (2 * Nat.sqrt x - r) := by
    have : (r : ℤ) * ((x / r : ℕ) + 1) = r * (x / r : ℕ) + r := by ring
    linarith
  nlinarith [sq_nonneg ((Nat.sqrt x : ℤ) - r)]

/-- Helper: for `4 ≤ x < 2^64` every Newton iterate of `sqrt_approx` stays
between `Nat.sqrt x` and `2^63 - 1`; in particular the wrapped u64 addition
inside each step never overflows. -/
theorem sqrtIterN_invariant (x : Nat) (hx : 4 ≤ x) (hxw : x < W64) :
    ∀ n : Nat, Nat.sqrt x ≤ sqrtIterN x n ∧ sqrtIterN x n ≤ 9223372036854775807 := by
  have hs2 : 2 ≤ Nat.sqrt x := Nat.le_sqrt.2 (by omega)
  have hsmall : Nat.sqrt x < 4294967296 := Nat.sqrt_lt.2 (by
    simp only [W64] at hxw
    omega)
  have hub : x ≤ Nat.sqrt x * Nat.sqrt x + 2 * Nat.sqrt x := by
    have h := Nat.lt_succ_sqrt x
    have h2 : Nat.succ (Nat.sqrt x) * Nat.succ (Nat.sqrt x) =
        Nat.sqrt x * Nat.sqrt x + 2 * Nat.sqrt x + 1 := by
      rw [Nat.succ_eq_add_one]
      ring
    omega
  intro n
  induction n with
  | zero =>
      constructor
      · exact (Nat.le_div_iff_mul_le (by omega)).2 (by
          nlinarith [Nat.sqrt_le x, hs2])
      · show x / 2 ≤ 9223372036854775807
        simp only [W64] at hxw
        omega
  | succ m ih =>
      obtain ⟨ih1, ih2⟩ := ih
      have hrpos : 0 < sqrtIterN x m := by omega
      have hdiv : x / sqrtIterN x m ≤ Nat.sqrt x + 2 := by
        calc x / sqrtIterN x m ≤ x / Nat.sqrt x :=
              Nat.div_le_div_left ih1 (by omega)
          _ ≤ (Nat.sqrt x * (Nat.sqrt x + 2)) / Nat.sqrt x := by
              apply Nat.div_le_div_right
              have : Nat.sqrt x * (Nat.sqrt x + 2) =
                  Nat.sqrt x * Nat.sqrt x + 2 * Nat.sqrt x := by ring
              omega
          _ = Nat.sqrt x + 2 := Nat.mul_div_cancel_left _ (by omega)
      have hsum : sqrtIterN x m + x / sqrtIterN x m < W64 := by
        simp only [W64]
        omega
      constructor
      · show Nat.sqrt x ≤ sqrtStep x (sqrtIterN x m)
        unfold sqrtStep
        rw [Nat.mod_eq_of_lt hsum]
        exact newton_ge_sqrt x _ hrpos
      · show sqrtStep x (sqrtIterN x m) ≤ 9223372036854775807
        unfold sqrtStep
        rw [Nat.mod_eq_of_lt hsum]
        omega

/-- C10: `sqrt_approx` is total: it returns 0 on input 0, 1 on inputs 1..3,
and for `4 ≤ x < 2^64` every one of the 8 Newton iterates starting from
`x / 2` stays at least 1, so the divisor `result` in `x / result` is never
zero. -/
theorem sqrt_approx_division_safe :
    ∀ x : Nat, x < W64 →
      (x = 0 → sqrt_approx x = 0) ∧
      (0 < x → x < 4 → sqrt_approx x = 1) ∧
      (4 ≤ x → ∀ n : Nat, n ≤ 8 → 1 ≤ sqrtIterN x n) := by
  intro x hxw
  refine ⟨fun h0 => by simp [sqrt_approx, h0], fun hp h4 => ?_, fun h4 n _hn => ?_⟩
  · unfold sqrt_approx
    rw [if_neg (by omega), if_pos h4]
  · have h1 := (sqrtIterN_invariant x h4 hxw n).1
    have hs2 : 2 ≤ Nat.sqrt x := Nat.le_sqrt.2 (by omega)
    omega

/-- C10 witness at input 100: the hypotheses hold and the eighth iterate is
positive; moreover `sqrt_approx 100` is that iterate. -/
theorem sqrt_approx_division_safe_witness :
    1 ≤ sqrtIterN 100 8 ∧ sqrt_approx 100 = sqrtIterN 100 8 :=
  ⟨(sqrt_approx_division_safe 100 (by decide)).2.2 (by decide) 8 (by decide),
    by decide⟩

end Pulse
